import Mathlib

/-!
Verification of the LexicalAnalyzer scanner (src/LexicalAnalyzer.py).

The analyzer keeps a dict of named regex patterns, reorders them
(FLOAT before NUMBER, COMMENT first, WHITESPACE last, then a stable sort
on descending pattern-text length), joins them into one alternation of
named groups, and scans input with Python re.finditer, emitting one
record per match (dropping WHITESPACE) and one UNRECOGNIZED record per
unmatched character.

The embedding below models the regex fragment actually used by the
analyzer's patterns with Python re backtracking semantics: for each
regex and input suffix, enumR lists the lengths of all possible matches
at the start of the suffix in the engine's backtracking priority order,
so the committed match length is the head of that list.
-/

namespace LexModel

/-- Regex fragment over characters: literal character, digit class (Python
d-class), whitespace class (Python s-class), concatenation, ordered
alternation, and greedy one-or-more repetition. None of these constructs
can match the empty string, mirroring the spec's assumption that no
registered pattern matches zero-length input. -/
inductive Regex where
| char : Char → Regex
| digit : Regex
| space : Regex
| cat : Regex → Regex → Regex
| alt : Regex → Regex → Regex
| plus : Regex → Regex
deriving DecidableEq

/-- Python re whitespace class over ASCII: space, tab, newline, carriage
return, vertical tab, form feed. -/
def isSpaceChar (c : Char) : Bool :=
  c == ' ' || c == '\t' || c == '\n' || c == '\r' || c == '\x0b' || c == '\x0c'

/-- Match lengths of a greedy one-or-more repetition of a body whose match
lengths on a suffix are given by e, in backtracking priority order: for
each body length (in the body's own priority order) the engine prefers
continuing with more repetitions before stopping. Fuel bounds the number
of repetitions; the analyzer's bodies consume at least one character, so
fuel equal to the suffix length is enough. -/
def plusEnum (e : List Char → List Nat) : Nat → List Char → List Nat
| 0, _ => []
| fuel + 1, l =>
  (e l).flatMap (fun n => ((plusEnum e fuel (l.drop n)).map (fun m => n + m)) ++ [n])

/-- All possible match lengths of a regex at the start of a suffix, in
Python re backtracking priority order (the committed match is the head). -/
def enumR : Regex → List Char → List Nat
| .char _, [] => []
| .char c, d :: _ => if d = c then [1] else []
| .digit, [] => []
| .digit, d :: _ => if d.isDigit then [1] else []
| .space, [] => []
| .space, d :: _ => if isSpaceChar d then [1] else []
| .cat r s, l => (enumR r l).flatMap (fun n => (enumR s (l.drop n)).map (fun m => n + m))
| .alt r s, l => enumR r l ++ enumR s l
| .plus r, l => plusEnum (fun l2 => enumR r l2) l.length l

/-- One token rule: its name (the token type), the raw pattern text as the
Python source stores it (used by the length-based sort), and the meaning
of that text under the re engine, as a Regex value. -/
structure Rule where
  name : String
  patStr : String
  pat : Regex
deriving DecidableEq

/-- One token record, as the dicts with keys lexeme and token_type that
tokenize_math_expression returns. -/
structure Token where
  lexeme : List Char
  token_type : String
deriving DecidableEq

/-- The match committed by the combined alternation of named groups at the
start of a suffix: alternatives are tried in token_specs order and the
engine commits to the first rule that can match, taking that rule's first
backtracking result. Returns the rule name (the unique non-None named
group, as identify_token_type reads it) and the match length. -/
def pythonMatch : List Rule → List Char → Option (String × Nat)
| [], _ => none
| r :: rs, l =>
  match (enumR r.pat l).head? with
  | some k => some (r.name, k)
  | none => pythonMatch rs l

/-- The finditer scan loop of tokenize_math_expression, one position at a
time: if the combined matcher matches at the current position, consume the
match and emit its record unless its type is WHITESPACE (identify_token_type
drops whitespace); otherwise the current character is part of a gap and
becomes its own UNRECOGNIZED record (process_unrecognized_tokens emits gap
characters one record per character, in order, before the next match).
Fuel bounds the number of steps; every step consumes at least one
character, so fuel equal to the input length is enough. -/
def scanAux (specs : List Rule) : Nat → List Char → List Token
| 0, _ => []
| _, [] => []
| fuel + 1, c :: cs =>
  match pythonMatch specs (c :: cs) with
  | none => Token.mk [c] "UNRECOGNIZED" :: scanAux specs fuel cs
  | some (tname, k) =>
    if tname = "WHITESPACE" then scanAux specs fuel ((c :: cs).drop k)
    else Token.mk ((c :: cs).take k) tname :: scanAux specs fuel ((c :: cs).drop k)

/-- Concatenation of the lexemes of a token list, for the total-coverage
property. -/
def concatLex : List Token → List Char
| [] => []
| t :: ts => t.lexeme ++ concatLex ts

/-- Python dict membership test on the name key (the expression name in
self.patterns). -/
def hasName (d : List Rule) (s : String) : Bool :=
  d.any (fun r => r.name == s)

/-- Assignment of one key-value pair into a Python dict modelled as an
association list in insertion order: an existing key keeps its position
and gets the new value, a new key is appended at the end. -/
def dictInsert (d : List Rule) (r : Rule) : List Rule :=
  if hasName d r.name then d.map (fun x => if x.name == r.name then r else x)
  else d ++ [r]

/-- Python dict.update: assign each new pair in order. With no new pairs
the dict is unchanged, as in update_patterns called without kwargs. -/
def dictUpdate (d : List Rule) (new : List Rule) : List Rule :=
  new.foldl dictInsert d

/-- Python list.remove with a name test: drop the first element whose name
satisfies the test (rule names are unique, so value equality on the
(name, pattern) tuple coincides with a name match). -/
def removeFirst (p : Rule → Bool) : List Rule → List Rule
| [] => []
| x :: xs => if p x then xs else x :: removeFirst p xs

/-- Python list.insert: insert at the given index, appending when the
index is at or past the end. -/
def insertAt : Nat → Rule → List Rule → List Rule
| _, r, [] => [r]
| 0, r, l => r :: l
| n + 1, r, x :: xs => x :: insertAt n r xs

/-- First reordering step of update_patterns: when both FLOAT and NUMBER
are registered, remove the FLOAT item and re-insert it at the index of
NUMBER, i.e. immediately before NUMBER. -/
def moveFloatBeforeNumber (items : List Rule) : List Rule :=
  if hasName items "FLOAT" && hasName items "NUMBER" then
    match items.find? (fun r => r.name == "FLOAT") with
    | none => items
    | some fl =>
      let rest := removeFirst (fun r => r.name == "FLOAT") items
      insertAt (rest.findIdx (fun r => r.name == "NUMBER")) fl rest
  else items

/-- Second reordering step of update_patterns: when COMMENT is registered,
remove it and insert it at index 0. -/
def moveCommentFront (items : List Rule) : List Rule :=
  match items.find? (fun r => r.name == "COMMENT") with
  | none => items
  | some c => c :: removeFirst (fun r => r.name == "COMMENT") items

/-- Third reordering step of update_patterns: when WHITESPACE is
registered, remove it and append it at the end. -/
def moveWhitespaceEnd (items : List Rule) : List Rule :=
  match items.find? (fun r => r.name == "WHITESPACE") with
  | none => items
  | some w => removeFirst (fun r => r.name == "WHITESPACE") items ++ [w]

/-- Order used by the final sort of update_patterns: rule a may come
before rule b when the raw pattern text of a is at least as long as that
of b (Python list.sort on key len(pattern) with reverse True). -/
def ruleLE (a b : Rule) : Prop := b.patStr.length ≤ a.patStr.length

instance : DecidableRel ruleLE := fun a b => Nat.decLe b.patStr.length a.patStr.length

instance : IsTotal Rule ruleLE := ⟨fun a b => Nat.le_total b.patStr.length a.patStr.length⟩

instance : IsTrans Rule ruleLE := ⟨fun _ _ _ h1 h2 => Nat.le_trans h2 h1⟩

/-- The full reordering pipeline of update_patterns producing token_specs:
the three ad hoc moves followed by a stable sort on descending pattern
text length (Python list.sort is stable; insertionSort with this order
keeps earlier elements first on equal lengths, matching it). -/
def orderSpecs (patterns : List Rule) : List Rule :=
  List.insertionSort ruleLE (moveWhitespaceEnd (moveCommentFront (moveFloatBeforeNumber patterns)))

/-- build_combined_pattern: the alternation of named groups in
token_specs order, or the never-matching pattern for an empty spec list. -/
def build_combined_pattern (token_specs : List Rule) : String :=
  if token_specs.isEmpty then "(?!)"
  else String.intercalate "|" (token_specs.map (fun r => "(?P<" ++ r.name ++ ">" ++ r.patStr ++ ")"))

/-- The analyzer object state: the patterns dict, the ordered token_specs
list, and the combined pattern text. -/
structure LexicalAnalyzer where
  patterns : List Rule
  token_specs : List Rule
  combined_pattern : String
deriving DecidableEq

/-- update_patterns: merge any new keyword patterns into the dict, then
either clear the specs when the dict is empty or rebuild token_specs and
the combined pattern from the reordering pipeline. -/
def LexicalAnalyzer.update_patterns (a : LexicalAnalyzer) (kwargs : List Rule) : LexicalAnalyzer :=
  let patterns := dictUpdate a.patterns kwargs
  if patterns.isEmpty then LexicalAnalyzer.mk patterns [] "(?!)"
  else
    let specs := orderSpecs patterns
    LexicalAnalyzer.mk patterns specs (build_combined_pattern specs)

/-- The constructor: store the keyword patterns as the dict, then call
update_patterns with no arguments when the dict is non-empty, and
otherwise set empty specs and the never-matching combined pattern. -/
def mkAnalyzer (token_patterns : List Rule) : LexicalAnalyzer :=
  if token_patterns.isEmpty then LexicalAnalyzer.mk token_patterns [] "(?!)"
  else LexicalAnalyzer.update_patterns (LexicalAnalyzer.mk token_patterns [] "") []

/-- tokenize_math_expression: with no token specs every character becomes
its own UNRECOGNIZED record; otherwise run the finditer loop (the
semantics of the combined pattern is the ordered alternation of the
token_specs, modelled by pythonMatch). -/
def LexicalAnalyzer.tokenize_math_expression (a : LexicalAnalyzer) (expression : List Char) : List Token :=
  if a.token_specs.isEmpty then expression.map (fun c => Token.mk [c] "UNRECOGNIZED")
  else scanAux a.token_specs expression.length expression

/-- identify_token_type with the analyzer object passed explicitly, as the
Python method receives self: reads the match's rule name, appends a record
to the token list unless the type is WHITESPACE, and hands the analyzer
back unchanged (the method body never assigns to self). -/
def identify_token_type (a : LexicalAnalyzer) (tname : String) (lex : List Char)
    (tokens : List Token) : List Token × LexicalAnalyzer :=
  if tname = "WHITESPACE" then (tokens, a) else (tokens ++ [Token.mk lex tname], a)

/-- The scan loop with the analyzer object threaded through each helper
call exactly as Python threads self, so that preservation of the
configuration across a scan is a statement, not a convention. -/
def scanAuxM (a : LexicalAnalyzer) : Nat → List Char → List Token × LexicalAnalyzer
| 0, _ => ([], a)
| _, [] => ([], a)
| fuel + 1, c :: cs =>
  match pythonMatch a.token_specs (c :: cs) with
  | none =>
    let r := scanAuxM a fuel cs
    (Token.mk [c] "UNRECOGNIZED" :: r.1, r.2)
  | some (tname, k) =>
    let step := identify_token_type a tname ((c :: cs).take k) []
    let r := scanAuxM step.2 fuel ((c :: cs).drop k)
    (step.1 ++ r.1, r.2)

/-- tokenize_math_expression with the analyzer threaded through, returning
the final analyzer state alongside the tokens. -/
def tokenizeM (a : LexicalAnalyzer) (expression : List Char) : List Token × LexicalAnalyzer :=
  if a.token_specs.isEmpty then (expression.map (fun c => Token.mk [c] "UNRECOGNIZED"), a)
  else scanAuxM a expression.length expression

/-- The NUMBER rule of the spec's examples: pattern text of length 3
meaning one or more digits. -/
def numberRule : Rule := Rule.mk "NUMBER" "\\d+" (Regex.plus Regex.digit)

/-- The WHITESPACE rule of the spec's examples: pattern text of length 3
meaning one or more whitespace characters. -/
def whitespaceRule : Rule := Rule.mk "WHITESPACE" "\\s+" (Regex.plus Regex.space)

/-- The FLOAT rule of the spec's examples: pattern text of length 8
meaning digits, a literal dot, digits. -/
def floatRule : Rule :=
  Rule.mk "FLOAT" "\\d+\\.\\d+"
    (Regex.cat (Regex.plus Regex.digit) (Regex.cat (Regex.char '.') (Regex.plus Regex.digit)))

/-- A rule named A with a one-character pattern text, for probing how the
ordering depends on pattern text length. -/
def ruleA1 : Rule := Rule.mk "A" "a" (Regex.char 'a')

/-- The same rule name A with a three-character pattern text. -/
def ruleA3 : Rule :=
  Rule.mk "A" "aaa" (Regex.cat (Regex.char 'a') (Regex.cat (Regex.char 'a') (Regex.char 'a')))

/-- A rule named B with a two-character pattern text. -/
def ruleB2 : Rule := Rule.mk "B" "bb" (Regex.cat (Regex.char 'b') (Regex.char 'b'))

/-- A rule whose name collides with the UNRECOGNIZED sentinel, matching
one or more digits. -/
def unrecNamedRule : Rule := Rule.mk "UNRECOGNIZED" "\\d+" (Regex.plus Regex.digit)

/-- An alternative pattern for the NUMBER name, for re-registration. -/
def numberAltRule : Rule := Rule.mk "NUMBER" "[0-9]+" (Regex.plus Regex.digit)

/-- Every match length produced by a repetition body that consumes between
one character and the whole suffix itself stays in that range. -/
lemma plusEnum_bounds (e : List Char → List Nat)
    (he : ∀ (l : List Char) (n : Nat), n ∈ e l → 1 ≤ n ∧ n ≤ l.length) :
    ∀ (fuel : Nat) (l : List Char) (n : Nat), n ∈ plusEnum e fuel l → 1 ≤ n ∧ n ≤ l.length := by
  intro fuel
  induction fuel with
  | zero => intro l n h; simp [plusEnum] at h
  | succ fuel ih =>
    intro l n h
    simp only [plusEnum, List.mem_flatMap, List.mem_append, List.mem_map,
      List.mem_singleton] at h
    obtain ⟨m, hm, hcase⟩ := h
    have hm1 := he l m hm
    rcases hcase with ⟨p, hp, rfl⟩ | rfl
    · have hp1 := ih (l.drop m) p hp
      simp only [List.length_drop] at hp1
      omega
    · exact hm1

/-- No construct of the regex fragment matches the empty string, and no
match extends past the end of the suffix: every enumerated match length
is between one and the suffix length. -/
lemma enumR_bounds : ∀ (r : Regex) (l : List Char) (n : Nat),
    n ∈ enumR r l → 1 ≤ n ∧ n ≤ l.length := by
  intro r
  induction r with
  | char c =>
    intro l n h
    cases l with
    | nil => simp [enumR] at h
    | cons d cs =>
      simp only [enumR] at h
      split at h <;> simp at h
      subst h
      simp
  | digit =>
    intro l n h
    cases l with
    | nil => simp [enumR] at h
    | cons d cs =>
      simp only [enumR] at h
      split at h <;> simp at h
      subst h
      simp
  | space =>
    intro l n h
    cases l with
    | nil => simp [enumR] at h
    | cons d cs =>
      simp only [enumR] at h
      split at h <;> simp at h
      subst h
      simp
  | cat r s ihr ihs =>
    intro l n h
    simp only [enumR, List.mem_flatMap, List.mem_map] at h
    obtain ⟨a, ha, b, hb, rfl⟩ := h
    have h1 := ihr l a ha
    have h2 := ihs (l.drop a) b hb
    simp only [List.length_drop] at h2
    omega
  | alt r s ihr ihs =>
    intro l n h
    simp only [enumR, List.mem_append] at h
    rcases h with h | h
    · exact ihr l n h
    · exact ihs l n h
  | plus r ihr =>
    intro l n h
    exact plusEnum_bounds (fun l2 => enumR r l2) (fun l2 n2 h2 => ihr l2 n2 h2) l.length l n h

/-- The combined matcher commits to a match of between one character and
the whole suffix, and its reported type is the name of one of the rules. -/
lemma pythonMatch_bounds : ∀ (specs : List Rule) (l : List Char) (s : String) (k : Nat),
    pythonMatch specs l = some (s, k) →
    1 ≤ k ∧ k ≤ l.length ∧ s ∈ specs.map Rule.name := by
  intro specs
  induction specs with
  | nil => intro l s k h; simp [pythonMatch] at h
  | cons r rs ih =>
    intro l s k h
    simp only [pythonMatch] at h
    cases henum : enumR r.pat l with
    | nil =>
      rw [henum] at h
      simp only [List.head?_nil] at h
      obtain ⟨h1, h2, h3⟩ := ih l s k h
      exact ⟨h1, h2, by simp [h3]⟩
    | cons a as =>
      rw [henum] at h
      simp only [List.head?_cons, Option.some.injEq, Prod.mk.injEq] at h
      obtain ⟨hs, hk⟩ := h
      have hb := enumR_bounds r.pat l a (by rw [henum]; exact List.mem_cons_self a as)
      subst hs
      subst hk
      exact ⟨hb.1, hb.2, by simp⟩

/-- Concatenating single-character UNRECOGNIZED records of every
character of a string gives back the string. -/
lemma concatLex_map_unrec : ∀ (e : List Char),
    concatLex (e.map (fun c => Token.mk [c] "UNRECOGNIZED")) = e := by
  intro e
  induction e with
  | nil => rfl
  | cons c cs ih => simp [concatLex, ih]

/-- Total coverage of the scan loop: when no rule is named WHITESPACE, no
record is filtered, and the concatenated lexemes rebuild the input. -/
lemma scanAux_concat (specs : List Rule) (hws : "WHITESPACE" ∉ specs.map Rule.name) :
    ∀ (fuel : Nat) (l : List Char), l.length ≤ fuel →
    concatLex (scanAux specs fuel l) = l := by
  intro fuel
  induction fuel with
  | zero =>
    intro l hl
    have : l = [] := List.length_eq_zero.mp (Nat.le_zero.mp hl)
    subst this
    rfl
  | succ fuel ih =>
    intro l hl
    cases l with
    | nil => rfl
    | cons c cs =>
      simp only [scanAux]
      cases hm : pythonMatch specs (c :: cs) with
      | none =>
        simp only [concatLex]
        rw [ih cs (by simp only [List.length_cons] at hl; omega)]
        rfl
      | some p =>
        obtain ⟨tname, k⟩ := p
        obtain ⟨hk1, hk2, hmem⟩ := pythonMatch_bounds specs (c :: cs) tname k hm
        have hne : ¬ tname = "WHITESPACE" := fun h => hws (h ▸ hmem)
        dsimp only
        rw [if_neg hne]
        simp only [concatLex]
        rw [ih ((c :: cs).drop k)
          (by simp only [List.length_drop, List.length_cons] at *; omega)]
        exact List.take_append_drop k (c :: cs)

/-- Removing the element that find? locates and putting it back in front
is a permutation of the original list. -/
lemma perm_cons_removeFirst (p : Rule → Bool) :
    ∀ (l : List Rule) (x : Rule), l.find? p = some x →
    List.Perm l (x :: removeFirst p l) := by
  intro l
  induction l with
  | nil => intro x h; simp at h
  | cons a as ih =>
    intro x h
    by_cases hp : p a
    · rw [List.find?_cons_of_pos as hp] at h
      simp only [Option.some.injEq] at h
      subst h
      simp [removeFirst, hp]
    · rw [List.find?_cons_of_neg as hp] at h
      have := ih x h
      simp only [removeFirst, hp, Bool.false_eq_true, if_false]
      exact (this.cons a).trans (List.Perm.swap x a _)

/-- Inserting an element at any index is a permutation of putting it in
front. -/
lemma insertAt_perm : ∀ (n : Nat) (r : Rule) (l : List Rule),
    List.Perm (insertAt n r l) (r :: l) := by
  intro n
  induction n with
  | zero => intro r l; cases l <;> simp [insertAt]
  | succ n ih =>
    intro r l
    cases l with
    | nil => simp [insertAt]
    | cons x xs =>
      simp only [insertAt]
      exact ((ih r xs).cons x).trans (List.Perm.swap r x _)

/-- The FLOAT move only reorders: its result is a permutation of its
input. -/
lemma moveFloatBeforeNumber_perm (items : List Rule) :
    List.Perm (moveFloatBeforeNumber items) items := by
  unfold moveFloatBeforeNumber
  by_cases hc : (hasName items "FLOAT" && hasName items "NUMBER") = true
  · rw [if_pos hc]
    cases hf : items.find? (fun r => r.name == "FLOAT") with
    | none => exact List.Perm.refl items
    | some fl =>
      exact (insertAt_perm _ fl _).trans (perm_cons_removeFirst _ items fl hf).symm
  · rw [if_neg hc]

/-- The COMMENT move only reorders: its result is a permutation of its
input. -/
lemma moveCommentFront_perm (items : List Rule) :
    List.Perm (moveCommentFront items) items := by
  unfold moveCommentFront
  cases hf : items.find? (fun r => r.name == "COMMENT") with
  | none => exact List.Perm.refl items
  | some c => exact (perm_cons_removeFirst _ items c hf).symm

/-- The WHITESPACE move only reorders: its result is a permutation of its
input. -/
lemma moveWhitespaceEnd_perm (items : List Rule) :
    List.Perm (moveWhitespaceEnd items) items := by
  unfold moveWhitespaceEnd
  cases hf : items.find? (fun r => r.name == "WHITESPACE") with
  | none => exact List.Perm.refl items
  | some w =>
    exact (List.perm_append_singleton w _).trans (perm_cons_removeFirst _ items w hf).symm

/-- The whole token_specs pipeline only reorders the registered rules. -/
lemma orderSpecs_perm (patterns : List Rule) :
    List.Perm (orderSpecs patterns) patterns := by
  unfold orderSpecs
  exact (List.perm_insertionSort ruleLE _).trans
    ((moveWhitespaceEnd_perm _).trans ((moveCommentFront_perm _).trans
      (moveFloatBeforeNumber_perm patterns)))

/-- The token_specs pipeline sorts by descending pattern text length. -/
lemma orderSpecs_sorted (patterns : List Rule) :
    List.Sorted ruleLE (orderSpecs patterns) :=
  List.sorted_insertionSort ruleLE _

/-- update_patterns rebuilds token_specs as a reordering of the updated
dict, sorted by descending pattern text length. -/
lemma update_patterns_token_specs (a : LexicalAnalyzer) (kwargs : List Rule) :
    List.Perm ((a.update_patterns kwargs).token_specs) (dictUpdate a.patterns kwargs) ∧
    List.Sorted ruleLE ((a.update_patterns kwargs).token_specs) := by
  unfold LexicalAnalyzer.update_patterns
  by_cases h : (dictUpdate a.patterns kwargs).isEmpty
  · rw [if_pos h]
    have he : dictUpdate a.patterns kwargs = [] := by simpa using h
    rw [he]
    exact ⟨List.Perm.refl [], List.sorted_nil⟩
  · rw [if_neg h]
    exact ⟨orderSpecs_perm _, orderSpecs_sorted _⟩

/-- The constructor stores the given rules as the dict and builds
token_specs as their reordering, sorted by descending pattern text
length. -/
lemma mkAnalyzer_token_specs (rules : List Rule) :
    List.Perm ((mkAnalyzer rules).token_specs) rules ∧
    List.Sorted ruleLE ((mkAnalyzer rules).token_specs) := by
  unfold mkAnalyzer
  by_cases h : rules.isEmpty
  · rw [if_pos h]
    have he : rules = [] := by simpa using h
    subst he
    exact ⟨List.Perm.refl [], List.sorted_nil⟩
  · rw [if_neg h]
    have := update_patterns_token_specs (LexicalAnalyzer.mk rules [] "") []
    simpa [dictUpdate] using this

/-- mkAnalyzer keeps the registered rules as the patterns dict. -/
lemma mkAnalyzer_patterns (rules : List Rule) : (mkAnalyzer rules).patterns = rules := by
  unfold mkAnalyzer
  by_cases h : rules.isEmpty
  · rw [if_pos h]
  · rw [if_neg h]
    unfold LexicalAnalyzer.update_patterns
    by_cases h2 : (dictUpdate rules []).isEmpty
    · rw [if_pos h2]
      rfl
    · rw [if_neg h2]
      rfl

/-- Every record the scan loop emits is either a single-character
UNRECOGNIZED record from a gap, or carries the name of one of the rules
and is not a WHITESPACE record (those are filtered before emission). -/
lemma scanAux_mem (specs : List Rule) :
    ∀ (fuel : Nat) (l : List Char) (t : Token), t ∈ scanAux specs fuel l →
    (t.token_type = "UNRECOGNIZED" ∧ t.lexeme.length = 1) ∨
    (t.token_type ∈ specs.map Rule.name ∧ t.token_type ≠ "WHITESPACE") := by
  intro fuel
  induction fuel with
  | zero => intro l t h; simp [scanAux] at h
  | succ fuel ih =>
    intro l t h
    cases l with
    | nil => simp [scanAux] at h
    | cons c cs =>
      simp only [scanAux] at h
      cases hm : pythonMatch specs (c :: cs) with
      | none =>
        rw [hm] at h
        simp only [List.mem_cons] at h
        rcases h with rfl | h
        · exact Or.inl ⟨rfl, rfl⟩
        · exact ih cs t h
      | some p =>
        obtain ⟨tname, k⟩ := p
        rw [hm] at h
        dsimp only at h
        obtain ⟨hk1, hk2, hmem⟩ := pythonMatch_bounds specs (c :: cs) tname k hm
        by_cases hws : tname = "WHITESPACE"
        · rw [if_pos hws] at h
          exact ih _ t h
        · rw [if_neg hws] at h
          simp only [List.mem_cons] at h
          rcases h with rfl | h
          · exact Or.inr ⟨hmem, hws⟩
          · exact ih _ t h

/-- Record classification lifted to tokenize_math_expression: every
returned record is a single-character UNRECOGNIZED record or a
non-whitespace record named by one of the token_specs rules. -/
lemma tokenize_mem_cases (a : LexicalAnalyzer) (e : List Char) (t : Token)
    (h : t ∈ a.tokenize_math_expression e) :
    (t.token_type = "UNRECOGNIZED" ∧ t.lexeme.length = 1) ∨
    (t.token_type ∈ a.token_specs.map Rule.name ∧ t.token_type ≠ "WHITESPACE") := by
  unfold LexicalAnalyzer.tokenize_math_expression at h
  by_cases hsp : a.token_specs.isEmpty
  · rw [if_pos hsp] at h
    simp only [List.mem_map] at h
    obtain ⟨c, _, rfl⟩ := h
    exact Or.inl ⟨rfl, rfl⟩
  · rw [if_neg hsp] at h
    exact scanAux_mem a.token_specs e.length e t h

/-- Threading the analyzer object through every helper call of the scan
loop returns it unchanged and produces the same records as the plain
loop. -/
lemma scanAuxM_eq (a : LexicalAnalyzer) :
    ∀ (fuel : Nat) (l : List Char),
    scanAuxM a fuel l = (scanAux a.token_specs fuel l, a) := by
  intro fuel
  induction fuel with
  | zero => intro l; cases l <;> rfl
  | succ fuel ih =>
    intro l
    cases l with
    | nil => rfl
    | cons c cs =>
      simp only [scanAuxM, scanAux]
      cases hm : pythonMatch a.token_specs (c :: cs) with
      | none => simp [ih]
      | some p =>
        obtain ⟨tname, k⟩ := p
        by_cases hws : tname = "WHITESPACE"
        · simp [identify_token_type, hws, ih]
        · simp [identify_token_type, hws, ih]

/-- Overwriting the pattern of an already registered name leaves the list
of registered names unchanged: no duplicate entry appears and positions
are kept. -/
lemma dictInsert_names_of_mem (d : List Rule) (r : Rule) (h : hasName d r.name = true) :
    (dictInsert d r).map Rule.name = d.map Rule.name := by
  unfold dictInsert
  rw [if_pos h]
  rw [List.map_map]
  apply List.map_congr_left
  intro x _
  simp only [Function.comp_apply]
  by_cases hx : x.name == r.name
  · rw [if_pos hx]
    exact (eq_of_beq hx).symm
  · rw [if_neg hx]

/-- Registering one pattern keeps rule names unique: an existing name is
overwritten in place, a new name is appended. -/
lemma dictInsert_names_nodup (d : List Rule) (r : Rule) (h : (d.map Rule.name).Nodup) :
    ((dictInsert d r).map Rule.name).Nodup := by
  by_cases hm : hasName d r.name = true
  · rw [dictInsert_names_of_mem d r hm]
    exact h
  · unfold dictInsert
    rw [if_neg hm]
    rw [List.map_append]
    have hnotin : r.name ∉ d.map Rule.name := by
      intro hcontra
      apply hm
      simp only [List.mem_map] at hcontra
      obtain ⟨x, hx, hxn⟩ := hcontra
      unfold hasName
      rw [List.any_eq_true]
      exact ⟨x, hx, by simp [hxn]⟩
    simp [List.Nodup.append, h, hnotin, List.disjoint_singleton]

/-- dict.update keeps rule names unique. -/
lemma dictUpdate_names_nodup (new : List Rule) : ∀ (d : List Rule),
    (d.map Rule.name).Nodup → ((dictUpdate d new).map Rule.name).Nodup := by
  induction new with
  | nil => intro d h; exact h
  | cons r rs ih =>
    intro d h
    have : dictUpdate d (r :: rs) = dictUpdate (dictInsert d r) rs := rfl
    rw [this]
    exact ih (dictInsert d r) (dictInsert_names_nodup d r h)

/-- The combined matcher commits to the first rule in token_specs order
whose pattern can match at the position, with that rule's first
backtracking length. -/
lemma pythonMatch_eq_find? : ∀ (specs : List Rule) (l : List Char),
    pythonMatch specs l =
      (specs.find? (fun r => !(enumR r.pat l).isEmpty)).map
        (fun r => (r.name, (enumR r.pat l).headD 0)) := by
  intro specs l
  induction specs with
  | nil => rfl
  | cons r rs ih =>
    simp only [pythonMatch]
    cases he : enumR r.pat l with
    | nil =>
      rw [List.find?_cons_of_neg _ (by simp [he])]
      simpa using ih
    | cons a as =>
      rw [List.find?_cons_of_pos _ (by simp [he])]
      simp [he]

/-- Claim C1, counterexample: the scanner has no include_whitespace
parameter and always drops WHITESPACE records, so with the single rule
WHITESPACE matching whitespace, scanning a one-space input returns no
records and the concatenated lexemes do not reproduce the input. -/
theorem c1_counterexample :
    concatLex ((mkAnalyzer [whitespaceRule]).tokenize_math_expression [' ']) ≠ [' '] := by
  decide

/-- Claim C1, amended: for every input string and every rule set that
contains no rule named WHITESPACE (so the scanner's unconditional
whitespace filter never fires), concatenating the lexemes of all returned
Token Records reproduces the original input exactly. -/
theorem c1_total_coverage (rules : List Rule) (e : List Char)
    (h : "WHITESPACE" ∉ rules.map Rule.name) :
    concatLex ((mkAnalyzer rules).tokenize_math_expression e) = e := by
  have hperm := (mkAnalyzer_token_specs rules).1
  have hws : "WHITESPACE" ∉ (mkAnalyzer rules).token_specs.map Rule.name := by
    intro hmem
    exact h ((hperm.map Rule.name).mem_iff.mp hmem)
  unfold LexicalAnalyzer.tokenize_math_expression
  by_cases hsp : (mkAnalyzer rules).token_specs.isEmpty
  · rw [if_pos hsp]
    exact concatLex_map_unrec e
  · rw [if_neg hsp]
    exact scanAux_concat _ hws e.length e (Nat.le_refl _)

/-- Claim C1, witness: total coverage evaluated with the NUMBER rule on
an input with a gap. -/
theorem c1_total_coverage_witness :
    ("WHITESPACE" ∉ [numberRule].map Rule.name) ∧
    concatLex ((mkAnalyzer [numberRule]).tokenize_math_expression "1@2".toList) = "1@2".toList :=
  ⟨by decide, c1_total_coverage [numberRule] "1@2".toList (by decide)⟩

/-- Claim C2, counterexample: there is no include_whitespace mode; on the
claim's own input the scanner does not return the record sequence the
claim asserts for include_whitespace true (no WHITESPACE record is ever
emitted). -/
theorem c2_counterexample :
    (mkAnalyzer [numberRule, whitespaceRule]).tokenize_math_expression "12 34".toList ≠
      [Token.mk ['1', '2'] "NUMBER", Token.mk [' '] "WHITESPACE",
       Token.mk ['3', '4'] "NUMBER"] := by
  decide

/-- Claim C2, amended: with rules NUMBER and WHITESPACE, scanning the
string 12-space-34 returns exactly NUMBER 12 then NUMBER 34; the
whitespace match advances the cursor without emitting a record (the space
appears neither as a record nor as UNRECOGNIZED), and there is no
include_whitespace parameter. -/
theorem c2_whitespace_filter :
    (mkAnalyzer [numberRule, whitespaceRule]).tokenize_math_expression "12 34".toList =
      [Token.mk ['1', '2'] "NUMBER", Token.mk ['3', '4'] "NUMBER"] := by
  decide

/-- Claim C3: with NUMBER and FLOAT registered, scanning 3.14 returns the
single FLOAT record 3.14; and in general the combined matcher commits, at
any position, to the first rule in token_specs order whose pattern
matches there. -/
theorem c3_precedence_determinism :
    ((mkAnalyzer [numberRule, floatRule]).tokenize_math_expression "3.14".toList =
      [Token.mk ['3', '.', '1', '4'] "FLOAT"]) ∧
    (∀ (specs : List Rule) (l : List Char),
      pythonMatch specs l =
        (specs.find? (fun r => !(enumR r.pat l).isEmpty)).map
          (fun r => (r.name, (enumR r.pat l).headD 0))) :=
  ⟨by decide, pythonMatch_eq_find?⟩

/-- Claim C4, counterexample: two rule sets with identical names,
identical insertion order and no priorities anywhere receive different
rule orders merely because one pattern text is longer, so the position of
a rule does depend on its pattern text, contrary to the claim. -/
theorem c4_counterexample :
    ((mkAnalyzer [ruleA1, ruleB2]).token_specs.map Rule.name = ["B", "A"]) ∧
    ((mkAnalyzer [ruleA3, ruleB2]).token_specs.map Rule.name = ["A", "B"]) ∧
    ([ruleA1, ruleB2].map Rule.name = [ruleA3, ruleB2].map Rule.name) ∧
    (["B", "A"] ≠ (["A", "B"] : List String)) := by
  decide

/-- Claim C4, amended: there is no caller-set priority; token_specs is
always a permutation of the registered rules that is sorted by descending
pattern text length (ad hoc moves of COMMENT, FLOAT and WHITESPACE
followed by a stable length sort), both after construction and after any
update_patterns call. -/
theorem c4_rule_ordering (a : LexicalAnalyzer) (kwargs rules : List Rule) :
    (List.Perm ((a.update_patterns kwargs).token_specs) (dictUpdate a.patterns kwargs) ∧
      List.Sorted ruleLE ((a.update_patterns kwargs).token_specs)) ∧
    (List.Perm ((mkAnalyzer rules).token_specs) rules ∧
      List.Sorted ruleLE ((mkAnalyzer rules).token_specs)) :=
  ⟨update_patterns_token_specs a kwargs, mkAnalyzer_token_specs rules⟩

/-- Claim C5: with an empty rule set the compiled matcher matches no
input at any position, and scanning any input yields one UNRECOGNIZED
record per input character, in input order. -/
theorem c5_empty_configuration :
    (∀ l : List Char, pythonMatch [] l = none) ∧
    (∀ e : List Char, (mkAnalyzer []).tokenize_math_expression e =
      e.map (fun c => Token.mk [c] "UNRECOGNIZED")) :=
  ⟨fun _ => rfl, fun _ => rfl⟩

/-- Claim C6: with the NUMBER rule, scanning 1@@2 yields NUMBER 1, two
separate single-character UNRECOGNIZED records for the two at-signs, then
NUMBER 2; and in general (for rule sets that do not reuse the
UNRECOGNIZED sentinel as a rule name) every UNRECOGNIZED record the
scanner emits covers exactly one character, never a merged span. -/
theorem c6_gap_granularity :
    ((mkAnalyzer [numberRule]).tokenize_math_expression "1@@2".toList =
      [Token.mk ['1'] "NUMBER", Token.mk ['@'] "UNRECOGNIZED",
       Token.mk ['@'] "UNRECOGNIZED", Token.mk ['2'] "NUMBER"]) ∧
    (∀ (rules : List Rule) (e : List Char) (t : Token),
      "UNRECOGNIZED" ∉ rules.map Rule.name →
      t ∈ (mkAnalyzer rules).tokenize_math_expression e →
      t.token_type = "UNRECOGNIZED" → t.lexeme.length = 1) := by
  constructor
  · decide
  · intro rules e t hn ht htt
    rcases tokenize_mem_cases (mkAnalyzer rules) e t ht with ⟨_, h2⟩ | ⟨hmem, _⟩
    · exact h2
    · exfalso
      apply hn
      rw [← htt]
      exact (((mkAnalyzer_token_specs rules).1.map Rule.name).mem_iff).mp hmem

/-- Claim C6, witness: the single-character property evaluated on the
claim's own example. -/
theorem c6_witness :
    ("UNRECOGNIZED" ∉ [numberRule].map Rule.name) ∧
    (Token.mk ['@'] "UNRECOGNIZED").lexeme.length = 1 :=
  ⟨by decide, c6_gap_granularity.2 [numberRule] "1@@2".toList (Token.mk ['@'] "UNRECOGNIZED")
    (by decide) (by decide) (by decide)⟩

/-- Claim C7: registering a pattern for an existing name overwrites it in
place (the name list is unchanged, so no duplicate entry appears),
dict.update preserves uniqueness of names, and token_specs never contains
two rules of the same name when the dict has none. -/
theorem c7_rule_name_uniqueness (d new : List Rule) (r : Rule) (a : LexicalAnalyzer) :
    (hasName d r.name = true → (dictInsert d r).map Rule.name = d.map Rule.name) ∧
    ((d.map Rule.name).Nodup → ((dictUpdate d new).map Rule.name).Nodup) ∧
    ((a.patterns.map Rule.name).Nodup →
      (((a.update_patterns new).token_specs).map Rule.name).Nodup) := by
  refine ⟨dictInsert_names_of_mem d r, dictUpdate_names_nodup new d, ?_⟩
  intro h
  have hperm := (update_patterns_token_specs a new).1
  have hn := dictUpdate_names_nodup new a.patterns h
  exact ((hperm.map Rule.name).nodup_iff).mpr hn

/-- Claim C7, witness: re-registering NUMBER with a new pattern keeps the
name list unchanged, and the rebuilt token_specs has no duplicate
names. -/
theorem c7_witness :
    ((dictInsert [numberRule, whitespaceRule] numberAltRule).map Rule.name =
      [numberRule, whitespaceRule].map Rule.name) ∧
    ((((mkAnalyzer [numberRule, whitespaceRule]).update_patterns
        [numberAltRule]).token_specs).map Rule.name).Nodup :=
  ⟨(c7_rule_name_uniqueness [numberRule, whitespaceRule] [numberAltRule] numberAltRule
      (mkAnalyzer [numberRule, whitespaceRule])).1 (by decide),
   (c7_rule_name_uniqueness [numberRule, whitespaceRule] [numberAltRule] numberAltRule
      (mkAnalyzer [numberRule, whitespaceRule])).2.2 (by decide)⟩

/-- Claim C8: a scan is a pure function of the compiled configuration and
the input. Two analyzers agreeing on token_specs produce identical record
sequences, and the scan with the analyzer object threaded through every
helper call returns the analyzer unchanged alongside the same records, so
a scan call leaves the configuration intact and repeated calls agree. -/
theorem c8_scan_purity (a b : LexicalAnalyzer) (e : List Char)
    (h : a.token_specs = b.token_specs) :
    (a.tokenize_math_expression e = b.tokenize_math_expression e) ∧
    tokenizeM a e = (a.tokenize_math_expression e, a) := by
  constructor
  · unfold LexicalAnalyzer.tokenize_math_expression
    rw [h]
  · unfold tokenizeM LexicalAnalyzer.tokenize_math_expression
    by_cases hsp : a.token_specs.isEmpty
    · rw [if_pos hsp, if_pos hsp]
    · rw [if_neg hsp, if_neg hsp]
      exact scanAuxM_eq a e.length e

/-- Claim C8, witness: two analyzers with the same token_specs but
different dict and combined pattern fields scan a concrete input to the
same records. -/
theorem c8_witness :
    ((mkAnalyzer [numberRule]).token_specs =
      (LexicalAnalyzer.mk [] (mkAnalyzer [numberRule]).token_specs "x").token_specs) ∧
    ((mkAnalyzer [numberRule]).tokenize_math_expression ['7'] =
      (LexicalAnalyzer.mk [] (mkAnalyzer [numberRule]).token_specs "x").tokenize_math_expression
        ['7']) :=
  ⟨rfl, (c8_scan_purity (mkAnalyzer [numberRule])
    (LexicalAnalyzer.mk [] (mkAnalyzer [numberRule]).token_specs "x") ['7'] rfl).1⟩

/-- Claim C9: tokenize_math_expression has no whitespace parameter and
unconditionally filters whitespace: no returned record ever has token
type WHITESPACE, for any analyzer and input; yet characters matched by
the WHITESPACE rule are consumed, as on the input 1-space-2 where the
space neither appears as a record nor becomes UNRECOGNIZED. -/
theorem c9_whitespace_always_filtered :
    (∀ (a : LexicalAnalyzer) (e : List Char) (t : Token),
      t ∈ a.tokenize_math_expression e → t.token_type ≠ "WHITESPACE") ∧
    ((mkAnalyzer [numberRule, whitespaceRule]).tokenize_math_expression "1 2".toList =
      [Token.mk ['1'] "NUMBER", Token.mk ['2'] "NUMBER"]) := by
  constructor
  · intro a e t h
    rcases tokenize_mem_cases a e t h with ⟨h1, _⟩ | ⟨_, h2⟩
    · rw [h1]
      decide
    · exact h2
  · decide

/-- Claim C9, witness: the no-whitespace-record property evaluated on a
concrete returned record. -/
theorem c9_witness :
    ((Token.mk ['1'] "NUMBER") ∈
      (mkAnalyzer [numberRule, whitespaceRule]).tokenize_math_expression "1 2".toList) ∧
    (Token.mk ['1'] "NUMBER").token_type ≠ "WHITESPACE" :=
  ⟨by decide, c9_whitespace_always_filtered.1 (mkAnalyzer [numberRule, whitespaceRule])
    "1 2".toList (Token.mk ['1'] "NUMBER") (by decide)⟩

/-- Claim C10, counterexample: a rule may itself be named UNRECOGNIZED;
its matches are emitted under that name with multi-character lexemes, so
not every record typed UNRECOGNIZED has a one-character lexeme. -/
theorem c10_counterexample :
    ((mkAnalyzer [unrecNamedRule]).tokenize_math_expression ['1', '2'] =
      [Token.mk ['1', '2'] "UNRECOGNIZED"]) ∧
    ¬((Token.mk ['1', '2'] "UNRECOGNIZED").lexeme.length = 1) := by
  decide

/-- Claim C10, amended: every returned record's token type is a
registered rule name or the sentinel UNRECOGNIZED; and provided no rule
is itself named UNRECOGNIZED, every record typed UNRECOGNIZED has a
lexeme of exactly one character. -/
theorem c10_label_closure (rules : List Rule) (e : List Char) (t : Token)
    (ht : t ∈ (mkAnalyzer rules).tokenize_math_expression e) :
    (t.token_type ∈ rules.map Rule.name ∨ t.token_type = "UNRECOGNIZED") ∧
    ("UNRECOGNIZED" ∉ rules.map Rule.name →
      t.token_type = "UNRECOGNIZED" → t.lexeme.length = 1) := by
  have hperm := (mkAnalyzer_token_specs rules).1.map Rule.name
  constructor
  · rcases tokenize_mem_cases (mkAnalyzer rules) e t ht with ⟨h1, _⟩ | ⟨hmem, _⟩
    · exact Or.inr h1
    · exact Or.inl (hperm.mem_iff.mp hmem)
  · intro hn htt
    rcases tokenize_mem_cases (mkAnalyzer rules) e t ht with ⟨_, h2⟩ | ⟨hmem, _⟩
    · exact h2
    · have hin := hperm.mem_iff.mp hmem
      rw [htt] at hin
      exact absurd hin hn

/-- Claim C10, witness: label closure evaluated on a concrete gap
record. -/
theorem c10_witness :
    ((Token.mk ['@'] "UNRECOGNIZED") ∈
      (mkAnalyzer [numberRule]).tokenize_math_expression ['1', '@']) ∧
    ((Token.mk ['@'] "UNRECOGNIZED").token_type ∈ [numberRule].map Rule.name ∨
      (Token.mk ['@'] "UNRECOGNIZED").token_type = "UNRECOGNIZED") :=
  ⟨by decide, (c10_label_closure [numberRule] ['1', '@']
    (Token.mk ['@'] "UNRECOGNIZED") (by decide)).1⟩

end LexModel
